import Mathlib

/-!
Verification of the dual-sided object cache of `CacheUtil.js`
(`bjt.CacheUtil` NoGap component).

The development shallowly embeds the JavaScript code:
* `JsVal` models JavaScript values (ids, property values, query inputs);
  numbers are modelled as `Int` (the ids exchanged by the cache are integral
  database identifiers).
* objects are association lists from property name to value, mirroring
  JavaScript objects with insertion-ordered keys;
* object identity is modelled with an explicit heap: the client cache's
  `list`, `map` and indices hold `Ref`s (references) into the heap, and the
  in-place shallow merges of `_applyChanges` mutate the heap entry, exactly
  as JavaScript mutates the shared object.

Every definition is translated from `src/components/util/CacheUtil.js`;
line references are given at each definition.
-/

set_option autoImplicit false

namespace CacheUtil

/- JavaScript values, as far as the cache code inspects them.
Nested object values carry their fields as a `JsFields` list (mutually
defined with `JsVal`); the cache code never looks inside a nested object
value, it only compares such values structurally. -/
mutual
/-- JavaScript values. -/
inductive JsVal where
  | null
  | undef
  | num (n : Int)
  | str (s : String)
  | bool (b : Bool)
  | obj (fields : JsFields)
deriving DecidableEq, Repr

/-- Field lists of nested JavaScript object values. -/
inductive JsFields where
  | nil
  | cons (key : String) (value : JsVal) (rest : JsFields)
deriving DecidableEq, Repr
end

/-- JavaScript `ToNumber` coercion, restricted to the values we model.
`none` plays the role of `NaN`.  (`Number(null) = 0`, `Number(undefined) = NaN`,
`Number("") = 0`, non-numeric strings and plain objects coerce to `NaN`,
booleans coerce to `0`/`1`.) -/
def jsToNumber : JsVal → Option Int
  | .null => some 0
  | .undef => none
  | .num n => some n
  | .str s => if s.trim = "" then some 0 else s.trim.toInt?
  | .bool b => some (if b then 1 else 0)
  | .obj _ => none

/-- The global `isNaN(v)` test used throughout `CacheUtil.js`
(lines 723, 786, 880, 1325, 1374, 1493): coerce to number, test for `NaN`. -/
def jsIsNaN (v : JsVal) : Bool :=
  (jsToNumber v).isNone

/-- JavaScript truthiness, used by `if (queryInput)` (line 745) and
`if (!data)` (line 610). -/
def jsTruthy : JsVal → Bool
  | .null => false
  | .undef => false
  | .num n => n != 0
  | .str s => s != ""
  | .bool b => b
  | .obj _ => true

/-- JavaScript property-key coercion: `node[val]` and `this.map[id]` coerce
the key to a string. -/
def jsKey : JsVal → String
  | .null => "null"
  | .undef => "undefined"
  | .num n => toString n
  | .str s => s
  | .bool b => if b then "true" else "false"
  | .obj _ => "[object Object]"

/-! ## Association lists

JavaScript objects (used by `CacheUtil.js` both as records and as
string-keyed dictionaries: `this.map`, index nodes) are modelled as
association lists with first-match lookup, in-place replacement on
assignment to an existing key, and append on assignment to a new key,
matching JavaScript's insertion-order semantics. -/

/-- First-match lookup, the meaning of `o[k]` (returning `none` for
`undefined`). -/
def lookupKV {α β : Type} [DecidableEq α] : List (α × β) → α → Option β
  | [], _ => none
  | kv :: rest, k => if kv.1 = k then some kv.2 else lookupKV rest k

/-- Replacement of the value at a key, leaving other entries alone. -/
def replaceKV {α β : Type} [DecidableEq α] : List (α × β) → α → β → List (α × β)
  | [], _, _ => []
  | kv :: rest, k, v => (if kv.1 = k then (k, v) else kv) :: replaceKV rest k v

/-- Assignment `o[k] = v`: replaces the value at an existing key in place,
otherwise appends the new key at the end. -/
def setKV {α β : Type} [DecidableEq α] (l : List (α × β)) (k : α) (v : β) :
    List (α × β) :=
  if (lookupKV l k).isSome then replaceKV l k v else l ++ [(k, v)]

/-- Deletion `delete o[k]`. -/
def delKV {α β : Type} [DecidableEq α] : List (α × β) → α → List (α × β)
  | [], _ => []
  | kv :: rest, k => if kv.1 = k then delKV rest k else kv :: delKV rest k

/-- A raw data record / JavaScript object: ordered properties. -/
abbrev Obj := List (String × JsVal)

/-- `o[p]`, with `undefined` for a missing property. -/
def getProp (o : Obj) (p : String) : JsVal :=
  (lookupKV o p).getD JsVal.undef

/-- `o[p] = v`. -/
def setProp (o : Obj) (p : String) (v : JsVal) : Obj :=
  setKV o p v

/-- The shallow-copy loop `for (var propName in newValues)
{ obj[propName] = newValues[propName]; }` of `_applyChanges`
(lines 1295-1297) and of the `InstanceClassBase` constructor (lines 64-67). -/
def copyProps (target : Obj) (source : Obj) : Obj :=
  source.foldl (fun acc kv => setProp acc kv.1 kv.2) target

/-! ## Indices (`_Index`, lines 295-426, and `IndexSet`, lines 433-484)

A `_Index` is a nested dictionary navigated by the string coercions of the
object's values at the key properties; the leaf holds one object (unique
index) or an array of objects (non-unique).  Navigating the full composite
key through the nested dictionaries is equivalent to looking up the full
key vector, so the tree is modelled as an association list from key vector
(list of coerced strings) to the list of member references (a unique leaf
being a one-element list written by overwrite). -/

/-- An object reference (JavaScript object identity). -/
abbrev Ref := Nat

/-- An index definition: entry of a cache descriptor's `indices` array. -/
structure IndexDef where
  name : String
  key : List String
  unique : Bool
deriving DecidableEq, Repr

/-- The runtime state of one `_Index`. -/
structure IndexData where
  idxDef : IndexDef
  entries : List (List String × List Ref)
deriving DecidableEq, Repr

/-- The key vector of an object under an index key path: `obj[propertyName]`
for each key property, coerced to the dictionary key string
(`_getContainerNode`, lines 359-372, and the leaf access of
`_addInstance`/`_removeInstance`, lines 379-380, 408-409). -/
def keyVecOf (key : List String) (o : Obj) : List String :=
  key.map (fun p => jsKey (getProp o p))

/-- `_Index._addInstance` (lines 374-401): a unique index overwrites the
leaf with the object (the double-add case is logged, not fatal); a
non-unique index pushes the object onto the leaf array (created on
demand). -/
def indexAddInstance (ix : IndexData) (r : Ref) (o : Obj) : IndexData :=
  let k := keyVecOf ix.idxDef.key o
  if ix.idxDef.unique then
    { ix with entries := setKV ix.entries k [r] }
  else
    { ix with entries := setKV ix.entries k (((lookupKV ix.entries k).getD []) ++ [r]) }

/-- `_Index._removeInstance` (lines 403-425): a unique index deletes the
leaf; a non-unique index removes the object from the leaf array by identity
(`_.remove`), tolerating a missing array (logged via assert, no throw). -/
def indexRemoveInstance (ix : IndexData) (r : Ref) (o : Obj) : IndexData :=
  let k := keyVecOf ix.idxDef.key o
  if ix.idxDef.unique then
    { ix with entries := delKV ix.entries k }
  else
    match lookupKV ix.entries k with
    | none => ix
    | some arr => { ix with entries := setKV ix.entries k (arr.filter (fun x => x != r)) }

/-- `_Index.get` on a unique index (lines 327-357): navigate the key values
(coerced to strings) and return the leaf object, `undefined` (`none`) when
absent. -/
def indexGetUnique (ix : IndexData) (args : List JsVal) : Option Ref :=
  (lookupKV ix.entries (args.map jsKey)).bind (fun rs => rs.head?)

/-- Membership of a reference anywhere in an index. -/
def refInIndex (ix : IndexData) (r : Ref) : Prop :=
  ∃ e ∈ ix.entries, r ∈ e.2

/-! ## Client cache endpoint (`Client.CacheEndpoint`, lines 1161-1521)

The endpoint owns `list` and `map` as two views of the same objects
(references into the heap), an optional `IndexSet` (here: list of
`IndexData`, fan-out by `List.map` as in `IndexSet._addInstance` /
`_removeInstance`, lines 465-483), and the `nUpdates` counter.  The cache
is configured with `idProperty`, from which the installer builds `idGetter`
/ `idSetter` (lines 143-158); `idGetter obj = obj[idProperty]`. -/

/-- State of a client-side cache endpoint, together with the heap of all
objects it has allocated (`nextRef` is the next unused reference). -/
structure ClientCache where
  idProperty : String
  list : List Ref
  map : List (String × Ref)
  heap : List (Ref × Obj)
  indices : List IndexData
  nUpdates : Nat
  nextRef : Ref
deriving DecidableEq, Repr

/-- Dereference a heap object (its current properties). -/
def heapGet (c : ClientCache) (r : Ref) : Obj :=
  (lookupKV c.heap r).getD []

/-- `idGetter` built from `idProperty` (lines 143-149). -/
def cacheIdOf (c : ClientCache) (o : Obj) : JsVal :=
  getProp o c.idProperty

/-- Events observable on a client cache endpoint (lines 511-548); the
`wrapped` payload is the wrapped object, `updating` carries the filtered
delta (modelled by its size), `updated` the applied delta, `removed` the
removed object. -/
inductive CEvent where
  | wrapped (r : Ref)
  | updating (deltaSize : Nat)
  | updated (delta : List Ref)
  | removed (r : Ref)
deriving DecidableEq, Repr

/-- `wrapObject` applied to a data record inside `_applyChanges`
(line 1246): yields an object carrying the record's data (the configured
`InstanceClass` copy, or the record itself when none is configured) and
fires the `wrapped` event (lines 609-630).  In the heap model the result
is an allocated reference holding the data. -/
def wrapAlloc (c : ClientCache) (o : Obj) : ClientCache × Ref × List CEvent :=
  let r := c.nextRef
  ({ c with heap := c.heap ++ [(r, o)], nextRef := r + 1 }, r, [.wrapped r])

/-- An entry of the filtered `newData` array after the first pass of
`_applyChanges`: either a freshly wrapped new object, or the raw update
record of an already-cached id. -/
inductive Delta where
  | freshObj (r : Ref)
  | changedRec (o : Obj)
deriving DecidableEq, Repr

/-- The change test of `_applyChanges` (lines 1252-1260): an incoming
record leaves the cached object unchanged when every incoming property is
(`angular.equals`-)equal to the corresponding property of the cached
object.  (`angular.equals` is structural deep equality; the model compares
the `JsVal` values structurally.) -/
def propsUnchanged (cur nv : Obj) : Bool :=
  nv.all (fun kv => decide (getProp cur kv.1 = kv.2))

/-- First pass of `_applyChanges` (lines 1231-1262): partition incoming
records, wrapping records with uncached ids and keeping records that change
a cached object, dropping no-op updates.  The `map` is not modified in this
pass; the heap only grows by the wrapped new objects. -/
def phase1 : ClientCache → List Obj → ClientCache × List Delta × List CEvent
  | c, [] => (c, [], [])
  | c, nv :: rest =>
    match lookupKV c.map (jsKey (cacheIdOf c nv)) with
    | none =>
      let w := wrapAlloc c nv
      let rec1 := phase1 w.1 rest
      (rec1.1, .freshObj w.2.1 :: rec1.2.1, w.2.2 ++ rec1.2.2)
    | some r =>
      if propsUnchanged (heapGet c r) nv then
        phase1 c rest
      else
        let rec1 := phase1 c rest
        (rec1.1, .changedRec nv :: rec1.2.1, rec1.2.2)

/-- Insertion of a new object (lines 1276-1290): append to `list`, set in
`map`, add to every configured index. -/
def insertNew (c : ClientCache) (r : Ref) : ClientCache :=
  let o := heapGet c r
  let k := jsKey (cacheIdOf c o)
  { c with
    list := c.list ++ [r]
    map := setKV c.map k r
    indices := c.indices.map (fun ix => indexAddInstance ix r o) }

/-- Second pass of `_applyChanges` (lines 1268-1303): insert entries whose
id is (still) uncached; shallow-copy the properties of the other entries
onto the cached object in place, replacing the delta entry by the cached
object. -/
def phase2 : ClientCache → List Delta → ClientCache × List Ref
  | c, [] => (c, [])
  | c, d :: rest =>
    let nv : Obj :=
      match d with
      | .freshObj r => heapGet c r
      | .changedRec o => o
    match lookupKV c.map (jsKey (cacheIdOf c nv)) with
    | some r =>
      let c1 := { c with heap := setKV c.heap r (copyProps (heapGet c r) nv) }
      let rec2 := phase2 c1 rest
      (rec2.1, r :: rec2.2)
    | none =>
      match d with
      | .freshObj r =>
        let rec2 := phase2 (insertNew c r) rest
        (rec2.1, r :: rec2.2)
      | .changedRec o =>
        let r := c.nextRef
        let c0 := { c with heap := c.heap ++ [(r, o)], nextRef := r + 1 }
        let rec2 := phase2 (insertNew c0 r) rest
        (rec2.1, r :: rec2.2)

/-- `Client.CacheEndpoint._applyChanges` (lines 1222-1317): both passes are
guarded by `if (data)`; the `updating` event fires between them with the
filtered delta; `nUpdates` is incremented and the `updated` event fired
with the applied delta unconditionally at the end.  Returns the new state,
the applied delta (`newData`) and the event trace. -/
def applyChangesData (c : ClientCache) (data : Option (List Obj)) :
    ClientCache × List Ref × List CEvent :=
  let p1 : ClientCache × List Delta × List CEvent :=
    match data with
    | none => (c, [], [])
    | some ds => phase1 c ds
  let p2 : ClientCache × List Ref :=
    match data with
    | none => (p1.1, [])
    | some _ => phase2 p1.1 p1.2.1
  let c2 := { p2.1 with nUpdates := p2.1.nUpdates + 1 }
  (c2, p2.2, p1.2.2 ++ [CEvent.updating p1.2.1.length] ++ [CEvent.updated p2.2])

/-- `Client.CacheEndpoint.applyChange` (lines 1201-1204): apply a
one-element change set and return its applied entry. -/
def applyChange (c : ClientCache) (o : Obj) : ClientCache × Option Ref × List CEvent :=
  let res := applyChangesData c (some [o])
  (res.1, res.2.1.head?, res.2.2)

/-- Argument of `removeFromCache` / `deleteObject`: an object reference, or
a plain id value. -/
inductive CacheArg where
  | objRef (r : Ref)
  | idVal (v : JsVal)
deriving DecidableEq, Repr

/-- The `isNaN` dispatch at the head of `removeFromCache` (lines 1324-1333)
and `deleteObject` (lines 1492-1501): a non-numeric argument is assumed to
be an object and its id read through `idGetter`; a numeric argument is the
id itself.  (Reading `idGetter` off a non-numeric plain value yields
`undefined`, as `v[idProperty]` does on a scalar.) -/
def argId (c : ClientCache) : CacheArg → JsVal
  | .objRef r => cacheIdOf c (heapGet c r)
  | .idVal v => if jsIsNaN v then .undef else v

/-- The linear `list` scan of `removeFromCache` (lines 1342-1348): splice
out the first entry whose id compares (`==`) equal to the target id.  The
loose comparison is modelled as equality of the JavaScript string coercions
of the two ids (they agree on the number/string ids the cache handles). -/
def removeListScan (c : ClientCache) (k : String) : List Ref → List Ref
  | [] => []
  | r :: rest =>
    if jsKey (cacheIdOf c (heapGet c r)) = k then rest
    else r :: removeListScan c k rest

/-- `Client.CacheEndpoint.removeFromCache` (lines 1323-1362): resolve the
id, and when it is cached delete it from `map`, splice it out of `list`,
remove it from all indices and fire `removed`; otherwise do nothing and
return `undefined` (`none`). -/
def removeFromCache (c : ClientCache) (arg : CacheArg) :
    ClientCache × Option Ref × List CEvent :=
  let idv := argId c arg
  match lookupKV c.map (jsKey idv) with
  | none => (c, none, [])
  | some r =>
    let o := heapGet c r
    let c1 := { c with
      map := delKV c.map (jsKey idv)
      list := removeListScan c (jsKey idv) c.list
      indices := c.indices.map (fun ix => indexRemoveInstance ix r o) }
    (c1, some r, [.removed r])

/-- Result of the synchronous `getObjectNow` (lines 1372-1381): a rejected
promise for a non-numeric input, the cached object, or `undefined`. -/
inductive ReadNowResult where
  | rejected (err : String)
  | found (r : Ref)
  | missing
deriving DecidableEq, Repr

/-- A network call from the client endpoint to the host (`this.Instance.
CacheUtil.host.*`). -/
inductive RpcCall where
  | toHost (procName : String) (cacheName : String)
deriving DecidableEq, Repr

/-- `Client.CacheEndpoint.getObjectNow` (lines 1372-1381): reject
non-numeric input, otherwise return `this.map[queryInput]` (`undefined` on
a miss).  The returned state and emitted network calls make the absence of
side effects provable. -/
def getObjectNow (c : ClientCache) (queryInput : JsVal) :
    ReadNowResult × ClientCache × List RpcCall :=
  if jsIsNaN queryInput then (.rejected "error.invalid.request", c, [])
  else
    match lookupKV c.map (jsKey queryInput) with
    | some r => (.found r, c, [])
    | none => (.missing, c, [])

/-- `Client.CacheEndpoint.updateObject` (lines 1467-1486): clone the cached
object (`_.clone(this.getObjectNowById(id))`), apply the change
optimistically, send to host; on rejection re-apply the clone and report
the error.  When no object with the input's id is cached the source logs a
failed assertion and the rollback path throws on the `undefined` clone;
this is modelled as `none`. -/
def clientUpdateObject (c : ClientCache) (queryInput : Obj) (hostRejects : Bool) :
    Option (ClientCache × List CEvent) :=
  match lookupKV c.map (jsKey (cacheIdOf c queryInput)) with
  | none => none
  | some r =>
    let origObj := heapGet c r
    let res1 := applyChange c queryInput
    if hostRejects then
      let res2 := applyChange res1.1 origObj
      some (res2.1, res1.2.2 ++ res2.2.2)
    else
      some (res1.1, res1.2.2)

/-- `Client.CacheEndpoint.deleteObject` (lines 1491-1520): remove the
object from the cache immediately, send to host; on rejection re-apply the
removed object (`applyChange(origObj)`) and report the error.  When the
argument resolves to an uncached id the source logs a failed assertion and
the rollback path throws; this is modelled as `none`. -/
def clientDeleteObject (c : ClientCache) (arg : CacheArg) (hostRejects : Bool) :
    Option (ClientCache × List CEvent) :=
  let res := removeFromCache c arg
  match res.2.1 with
  | none => none
  | some r =>
    if hostRejects then
      let origObj := heapGet res.1 r
      let res2 := applyChange res.1 origObj
      some (res2.1, res.2.2 ++ res2.2.2)
    else
      some (res.1, res.2.2)

/-! ## Host cache endpoint (`Host.CacheEndpoint`, lines 666-1042) -/

/-- Result of a host-side `compile*` function: a compiled value, or a
rejected promise carrying the error tag. -/
inductive CompileResult where
  | ok (value : JsVal)
  | rejected (err : String)
deriving DecidableEq, Repr

/-- `Host.CacheEndpoint.compileReadObjectQuery` (lines 721-736): reject
(`error.invalid.request`) any input for which `isNaN(queryInput)` holds,
otherwise return the input as the identifier. -/
def compileReadObjectQuery (queryInput : JsVal) : CompileResult :=
  if jsIsNaN queryInput then .rejected "error.invalid.request"
  else .ok queryInput

/-- `Host.CacheEndpoint.compileReadObjectsQuery` (lines 744-758): reject
(`error.invalid.request`) any truthy input, otherwise return the empty
(unrestricted) filter `{}`. -/
def compileReadObjectsQuery (queryInput : JsVal) : CompileResult :=
  if jsTruthy queryInput then .rejected "error.invalid.request"
  else .ok (.obj .nil)

/-- The spec's "input resolves to a numeric identifier", as the source
decides it: the JavaScript `isNaN` coercion test does not yield `NaN`. -/
def resolvesToNumericIdentifier (q : JsVal) : Prop :=
  jsIsNaN q = false

/-- The spec's "non-empty/present input", as the source decides it: the
input is truthy (absent arguments are `undefined`, hence falsy). -/
def queryInputPresent (q : JsVal) : Prop :=
  jsTruthy q = true

/-! ## Host `Public` procedures (lines 1060-1144)

Each Client-to-Host procedure looks the endpoint up by name, rejects an
unknown `cacheName` with `error.invalid.request`, rejects a user below the
minimum role with `error.invalid.permissions`, and only then delegates to
the endpoint (which is where any store access happens).  Delegation is
modelled as an emitted `HostEffect`; the gating behaviour needs nothing
further about the store. -/

/-- What the host's gating inspects: the registry of known cache names and
the result of `this.Instance.User.hasRole(this.getMinRole())`. -/
structure HostAccess where
  knownCaches : List String
  userHasMinRole : Bool
deriving DecidableEq, Repr

/-- A delegation to the named endpoint (and thereby to the object store). -/
inductive HostEffect where
  | endpointOp (procName : String) (cacheName : String)
deriving DecidableEq, Repr

/-- `Host.Public.fetchObject` (lines 1061-1074). -/
def publicFetchObject (h : HostAccess) (cacheName : String) :
    Except String Unit × List HostEffect :=
  if h.knownCaches.contains cacheName = false then
    (.error "error.invalid.request", [])
  else if h.userHasMinRole = false then
    (.error "error.invalid.permissions", [])
  else
    (.ok (), [.endpointOp "readObject" cacheName])

/-- `Host.Public.fetchObjects` (lines 1076-1090). -/
def publicFetchObjects (h : HostAccess) (cacheName : String) :
    Except String Unit × List HostEffect :=
  if h.knownCaches.contains cacheName = false then
    (.error "error.invalid.request", [])
  else if h.userHasMinRole = false then
    (.error "error.invalid.permissions", [])
  else
    (.ok (), [.endpointOp "readObjects" cacheName])

/-- `Host.Public.createObject` (lines 1092-1111). -/
def publicCreateObject (h : HostAccess) (cacheName : String) :
    Except String Unit × List HostEffect :=
  if h.knownCaches.contains cacheName = false then
    (.error "error.invalid.request", [])
  else if h.userHasMinRole = false then
    (.error "error.invalid.permissions", [])
  else
    (.ok (), [.endpointOp "createObject" cacheName])

/-- `Host.Public.updateObject` (lines 1113-1127). -/
def publicUpdateObject (h : HostAccess) (cacheName : String) :
    Except String Unit × List HostEffect :=
  if h.knownCaches.contains cacheName = false then
    (.error "error.invalid.request", [])
  else if h.userHasMinRole = false then
    (.error "error.invalid.permissions", [])
  else
    (.ok (), [.endpointOp "updateObject" cacheName])

/-- `Host.Public.deleteObject` (lines 1129-1143). -/
def publicDeleteObject (h : HostAccess) (cacheName : String) :
    Except String Unit × List HostEffect :=
  if h.knownCaches.contains cacheName = false then
    (.error "error.invalid.request", [])
  else if h.userHasMinRole = false then
    (.error "error.invalid.permissions", [])
  else
    (.ok (), [.endpointOp "deleteObject" cacheName])

/-! ## `CacheEndpointBase.wrapObject` (lines 609-630) -/

/-- Observable steps of a `wrapObject` call. -/
inductive WrapStep where
  | constructedInstance
  | onWrapObjectCalled
  | wrappedFired
deriving DecidableEq, Repr

/-- `CacheEndpointBase.wrapObject` (lines 609-630): `if (!data) return
null;` short-circuits on any falsy argument; otherwise the configured
`InstanceClass` is constructed over the data (or the data passed through),
`onWrapObject` is invoked and the `wrapped` event fired once with the
resulting object. -/
def wrapObject (hasInstanceClass : Bool) (data : JsVal) : JsVal × List WrapStep :=
  if jsTruthy data = false then (.null, [])
  else
    ((data,
      (if hasInstanceClass then [WrapStep.constructedInstance] else []) ++
        [WrapStep.onWrapObjectCalled, WrapStep.wrappedFired]))

/-! ## Concrete states

The `Users` scenario of the spec: a cache with `idProperty = "id"` and one
unique secondary index on `email`, built through the code's own insertion
path. -/

/-- The `email` index definition. -/
def emailIndexDef : IndexDef :=
  { name := "email", key := ["email"], unique := true }

/-- A freshly installed `Users` client cache endpoint. -/
def emptyUsersCache : ClientCache :=
  { idProperty := "id"
    list := []
    map := []
    heap := []
    indices := [{ idxDef := emailIndexDef, entries := [] }]
    nUpdates := 0
    nextRef := 0 }

/-- The record `{id: 1, email: "a@x.com"}`. -/
def userRec1 : Obj :=
  [("id", .num 1), ("email", .str "a@x.com")]

/-- The `Users` cache after inserting `userRec1` through `_applyChanges`. -/
def usersCache1 : ClientCache :=
  (applyChangesData emptyUsersCache (some [userRec1])).1

/-- Lookup of a configured index by name (`this.indices[name]`). -/
def indexByName (c : ClientCache) (nm : String) : Option IndexData :=
  c.indices.find? (fun ix => ix.idxDef.name == nm)

/-- The record `{id: 1, email: "b@x.com"}` of the spec's index scenario. -/
def emailChangeRec : Obj :=
  [("id", .num 1), ("email", .str "b@x.com")]

/-- The `Users` cache after further merging `emailChangeRec`. -/
def usersCache2 : ClientCache :=
  (applyChangesData usersCache1 (some [emailChangeRec])).1

/-- An update input for object id 1 carrying a property (`extra`) that the
cached object does not have. -/
def updateInputC1 : Obj :=
  [("id", .num 1), ("email", .str "a@x.com"), ("extra", .str "X")]

/-- A record with the fresh id 2. -/
def newUserRec : Obj :=
  [("id", .num 2), ("email", .str "c@x.com")]

/-- Number of `updated` events in a trace. -/
def countUpdatedEvents (evs : List CEvent) : Nat :=
  evs.countP (fun e => match e with | .updated _ => true | _ => false)

/-- State after an in-place merge of `nv` onto the cached object `r`
(the "object was cached previously" branch of `_applyChanges`). -/
def mergedState (c : ClientCache) (nv : Obj) (r : Ref) : ClientCache :=
  { c with
    heap := setKV c.heap r (copyProps (heapGet c r) nv)
    nUpdates := c.nUpdates + 1 }

/-- The heap change of an in-place merge alone (second pass of
`_applyChanges`, before the final `nUpdates` increment). -/
def mergedHeapState (c : ClientCache) (nv : Obj) (r : Ref) : ClientCache :=
  { c with heap := setKV c.heap r (copyProps (heapGet c r) nv) }

/-- The allocation step of the second pass's raw-record insertion branch. -/
def allocState (c : ClientCache) (o : Obj) : ClientCache :=
  { c with heap := c.heap ++ [(c.nextRef, o)], nextRef := c.nextRef + 1 }

/-- State after `removeFromCache` has removed the cached object `r` stored
under map key `k`. -/
def removedState (c : ClientCache) (k : String) (r : Ref) : ClientCache :=
  { c with
    map := delKV c.map k
    list := removeListScan c k c.list
    indices := c.indices.map (fun ix => indexRemoveInstance ix r (heapGet c r)) }

/-- State after inserting the record `nv` as a new object (the "new object"
branch of `_applyChanges`). -/
def insertedState (c : ClientCache) (nv : Obj) : ClientCache :=
  { c with
    heap := c.heap ++ [(c.nextRef, nv)]
    nextRef := c.nextRef + 1
    list := c.list ++ [c.nextRef]
    map := setKV c.map (jsKey (cacheIdOf c nv)) c.nextRef
    indices := c.indices.map (fun ix => indexAddInstance ix c.nextRef nv)
    nUpdates := c.nUpdates + 1 }

/-! ## Association-list lemmas -/

section AList

variable {α β : Type} [DecidableEq α]

theorem lookupKV_append (l1 l2 : List (α × β)) (k : α) :
    lookupKV (l1 ++ l2) k =
      match lookupKV l1 k with
      | some v => some v
      | none => lookupKV l2 k := by
  induction l1 with
  | nil => simp [lookupKV]
  | cons kv rest ih =>
    by_cases h : kv.1 = k <;> simp [lookupKV, h, ih]

theorem lookupKV_replaceKV_self (l : List (α × β)) (k : α) (v : β)
    (h : (lookupKV l k).isSome) :
    lookupKV (replaceKV l k v) k = some v := by
  induction l with
  | nil => simp [lookupKV] at h
  | cons kv rest ih =>
    by_cases hk : kv.1 = k
    · simp [lookupKV, replaceKV, hk]
    · simp only [lookupKV, hk, if_false] at h
      simp [lookupKV, replaceKV, hk, ih h]

theorem lookupKV_replaceKV_ne (l : List (α × β)) (k k' : α) (v : β)
    (h : k' ≠ k) :
    lookupKV (replaceKV l k' v) k = lookupKV l k := by
  induction l with
  | nil => simp [replaceKV, lookupKV]
  | cons kv rest ih =>
    by_cases hk : kv.1 = k'
    · simp [lookupKV, replaceKV, hk, h, ih]
    · simp [lookupKV, replaceKV, hk, ih]

theorem lookupKV_setKV_self (l : List (α × β)) (k : α) (v : β) :
    lookupKV (setKV l k v) k = some v := by
  unfold setKV
  by_cases h : (lookupKV l k).isSome
  · simp [h, lookupKV_replaceKV_self l k v h]
  · simp only [h, if_false, Bool.false_eq_true]
    rw [lookupKV_append]
    simp only [Option.not_isSome_iff_eq_none] at h
    simp [h, lookupKV]

theorem lookupKV_setKV_ne (l : List (α × β)) (k k' : α) (v : β) (h : k' ≠ k) :
    lookupKV (setKV l k' v) k = lookupKV l k := by
  unfold setKV
  by_cases hs : (lookupKV l k').isSome
  · simp [hs, lookupKV_replaceKV_ne l k k' v h]
  · simp only [hs, if_false, Bool.false_eq_true]
    rw [lookupKV_append]
    cases hl : lookupKV l k with
    | some v' => simp
    | none => simp [lookupKV, h]

theorem lookupKV_delKV_self (l : List (α × β)) (k : α) :
    lookupKV (delKV l k) k = none := by
  induction l with
  | nil => simp [delKV, lookupKV]
  | cons kv rest ih =>
    by_cases hk : kv.1 = k <;> simp [delKV, lookupKV, hk, ih]

theorem lookupKV_delKV_ne (l : List (α × β)) (k k' : α) (h : k' ≠ k) :
    lookupKV (delKV l k') k = lookupKV l k := by
  induction l with
  | nil => simp [delKV]
  | cons kv rest ih =>
    by_cases hk : kv.1 = k'
    · simp [delKV, lookupKV, hk, h, ih]
    · simp [delKV, lookupKV, hk, ih]

theorem lookupKV_isSome_of_mem (l : List (α × β)) (k : α) (v : β)
    (h : (k, v) ∈ l) : (lookupKV l k).isSome := by
  induction l with
  | nil => simp at h
  | cons kv rest ih =>
    rcases List.mem_cons.mp h with h1 | h1
    · rw [← h1]
      simp [lookupKV]
    · by_cases hk : kv.1 = k
      · simp [lookupKV, hk]
      · simp only [lookupKV, hk, if_false]
        exact ih h1

theorem mem_replaceKV_self (l : List (α × β)) (k : α) (v : β)
    (h : (lookupKV l k).isSome) : (k, v) ∈ replaceKV l k v := by
  induction l with
  | nil => simp [lookupKV] at h
  | cons kv rest ih =>
    by_cases hk : kv.1 = k
    · simp [replaceKV, hk]
    · simp only [lookupKV, hk, if_false] at h
      simp [replaceKV, hk, ih h]

theorem mem_setKV_self (l : List (α × β)) (k : α) (v : β) :
    (k, v) ∈ setKV l k v := by
  unfold setKV
  by_cases h : (lookupKV l k).isSome
  · rw [if_pos h]
    exact mem_replaceKV_self l k v h
  · rw [if_neg h]
    simp

theorem mem_replaceKV_elim (l : List (α × β)) (k : α) (v : β) (e : α × β)
    (h : e ∈ replaceKV l k v) : e = (k, v) ∨ (e ∈ l ∧ e.1 ≠ k) := by
  induction l with
  | nil => simp [replaceKV] at h
  | cons kv rest ih =>
    simp only [replaceKV, List.mem_cons] at h
    rcases h with h1 | h1
    · by_cases hk : kv.1 = k
      · rw [if_pos hk] at h1
        exact Or.inl h1
      · rw [if_neg hk] at h1
        subst h1
        exact Or.inr ⟨List.mem_cons_self _ _, hk⟩
    · rcases ih h1 with h2 | h2
      · exact Or.inl h2
      · exact Or.inr ⟨List.mem_cons_of_mem _ h2.1, h2.2⟩

theorem mem_setKV_elim (l : List (α × β)) (k : α) (v : β) (e : α × β)
    (h : e ∈ setKV l k v) : e = (k, v) ∨ (e ∈ l ∧ e.1 ≠ k) := by
  unfold setKV at h
  by_cases hs : (lookupKV l k).isSome
  · rw [if_pos hs] at h
    exact mem_replaceKV_elim l k v e h
  · rw [if_neg hs] at h
    rcases List.mem_append.mp h with h1 | h1
    · by_cases hk : e.1 = k
      · exfalso
        have h2 : (e.1, e.2) ∈ l := by simpa using h1
        have h3 := lookupKV_isSome_of_mem l e.1 e.2 h2
        rw [hk] at h3
        exact hs h3
      · exact Or.inr ⟨h1, hk⟩
    · exact Or.inl (by simpa using h1)

theorem mem_delKV_elim (l : List (α × β)) (k : α) (e : α × β)
    (h : e ∈ delKV l k) : e ∈ l ∧ e.1 ≠ k := by
  induction l with
  | nil => simp [delKV] at h
  | cons kv rest ih =>
    by_cases hk : kv.1 = k
    · rw [delKV, if_pos hk] at h
      exact ⟨List.mem_cons_of_mem _ (ih h).1, (ih h).2⟩
    · rw [delKV, if_neg hk] at h
      rcases List.mem_cons.mp h with h1 | h1
      · refine ⟨List.mem_cons.mpr (Or.inl h1), ?_⟩
        rw [h1]
        exact hk
      · exact ⟨List.mem_cons_of_mem _ (ih h1).1, (ih h1).2⟩

theorem lookupKV_eq_some_of_mem_nodup (l : List (α × β)) (k : α) (v : β)
    (hnd : (l.map Prod.fst).Nodup) (h : (k, v) ∈ l) :
    lookupKV l k = some v := by
  induction l with
  | nil => simp at h
  | cons kv rest ih =>
    simp only [List.map_cons, List.nodup_cons] at hnd
    rcases List.mem_cons.mp h with h1 | h1
    · rw [← h1]
      simp [lookupKV]
    · have hk : kv.1 ≠ k := by
        intro he
        apply hnd.1
        rw [he]
        simpa using List.mem_map_of_mem Prod.fst h1
      simp [lookupKV, hk, ih hnd.2 h1]

end AList

/-! ## Property lemmas (`getProp` / `setProp` / `copyProps`) -/

theorem getProp_setProp_self (o : Obj) (k : String) (v : JsVal) :
    getProp (setProp o k v) k = v := by
  simp [getProp, setProp, lookupKV_setKV_self]

theorem getProp_setProp_ne (o : Obj) (k k' : String) (v : JsVal) (h : k' ≠ k) :
    getProp (setProp o k' v) k = getProp o k := by
  simp [getProp, setProp, lookupKV_setKV_ne o k k' v h]

theorem copyProps_cons (t : Obj) (kv : String × JsVal) (src : Obj) :
    copyProps t (kv :: src) = copyProps (setProp t kv.1 kv.2) src := by
  simp [copyProps]

theorem getProp_copyProps_not_mem :
    ∀ (src t : Obj) (k : String), k ∉ src.map Prod.fst →
      getProp (copyProps t src) k = getProp t k := by
  intro src
  induction src with
  | nil => intro t k _; simp [copyProps]
  | cons kv rest ih =>
    intro t k h
    simp only [List.map_cons, List.mem_cons] at h
    push_neg at h
    rw [copyProps_cons, ih _ _ h.2, getProp_setProp_ne _ _ _ _ (fun he => h.1 he.symm)]

theorem getProp_copyProps_mem :
    ∀ (src : Obj), (src.map Prod.fst).Nodup →
      ∀ (t : Obj) (k : String), k ∈ src.map Prod.fst →
        getProp (copyProps t src) k = getProp src k := by
  intro src
  induction src with
  | nil => intro _ t k h; simp at h
  | cons kv rest ih =>
    intro hnd t k h
    simp only [List.map_cons, List.nodup_cons] at hnd
    rw [copyProps_cons]
    by_cases hk : k = kv.1
    · subst hk
      rw [getProp_copyProps_not_mem _ _ _ hnd.1, getProp_setProp_self]
      simp [getProp, lookupKV]
    · simp only [List.map_cons, List.mem_cons] at h
      rcases h with h1 | h1
      · exact absurd h1 hk
      · rw [ih hnd.2 _ _ h1]
        have hk2 : kv.1 ≠ k := fun he => hk he.symm
        simp [getProp, lookupKV, hk2]

/-! ## Further association-list helpers -/

theorem mem_of_lookupKV {α β : Type} [DecidableEq α] (l : List (α × β)) (k : α) (v : β)
    (h : lookupKV l k = some v) : (k, v) ∈ l := by
  induction l with
  | nil => simp [lookupKV] at h
  | cons kv rest ih =>
    by_cases hk : kv.1 = k
    · rw [lookupKV, if_pos hk] at h
      have hv : kv.2 = v := Option.some_inj.mp h
      have hkv : kv = (k, v) := by
        cases kv
        simp_all
      rw [← hkv]
      exact List.mem_cons_self _ _
    · rw [lookupKV, if_neg hk] at h
      exact List.mem_cons_of_mem _ (ih h)

theorem lookupKV_append_elim {α β : Type} [DecidableEq α] (l1 l2 : List (α × β)) (k : α) (v : β)
    (h : lookupKV (l1 ++ l2) k = some v) :
    lookupKV l1 k = some v ∨ lookupKV l2 k = some v := by
  rw [lookupKV_append] at h
  cases hl : lookupKV l1 k with
  | some w => rw [hl] at h; exact Or.inl h
  | none => rw [hl] at h; exact Or.inr h

theorem lookupKV_append_left {α β : Type} [DecidableEq α] (l1 l2 : List (α × β)) (k : α) (v : β)
    (h : lookupKV l1 k = some v) : lookupKV (l1 ++ l2) k = some v := by
  rw [lookupKV_append, h]

theorem isSome_lookupKV_setKV {α β : Type} [DecidableEq α] (l : List (α × β)) (k k' : α) (v : β)
    (h : (lookupKV l k).isSome) : (lookupKV (setKV l k' v) k).isSome := by
  by_cases hk : k = k'
  · rw [hk, lookupKV_setKV_self]
    simp
  · rw [lookupKV_setKV_ne _ _ _ _ (fun he => hk he.symm)]
    exact h

theorem lookupKV_setKV_cases {α β : Type} [DecidableEq α] (l : List (α × β)) (k k' : α) (v w : β)
    (h : lookupKV (setKV l k' v) k = some w) :
    (k = k' ∧ w = v) ∨ lookupKV l k = some w := by
  by_cases hk : k = k'
  · subst hk
    rw [lookupKV_setKV_self] at h
    exact Or.inl ⟨rfl, (Option.some_inj.mp h).symm⟩
  · rw [lookupKV_setKV_ne _ _ _ _ (fun he => hk he.symm)] at h
    exact Or.inr h

/-! ## Change-detection helpers -/

theorem propsUnchanged_iff (cur nv : Obj) :
    propsUnchanged cur nv = true ↔ ∀ kv ∈ nv, getProp cur kv.1 = kv.2 := by
  simp [propsUnchanged, List.all_eq_true]

theorem propsUnchanged_self (o : Obj) (hnd : (o.map Prod.fst).Nodup) :
    propsUnchanged o o = true := by
  rw [propsUnchanged_iff]
  intro kv hkv
  simp [getProp, lookupKV_eq_some_of_mem_nodup o kv.1 kv.2 hnd (by simpa using hkv)]

/-! ## Index helpers -/

theorem refInIndex_indexAddInstance (ix : IndexData) (r : Ref) (o : Obj) :
    refInIndex (indexAddInstance ix r o) r := by
  unfold refInIndex indexAddInstance
  by_cases hu : ix.idxDef.unique = true
  · rw [if_pos hu]
    exact ⟨(keyVecOf ix.idxDef.key o, [r]), mem_setKV_self _ _ _, by simp⟩
  · rw [if_neg hu]
    refine ⟨(keyVecOf ix.idxDef.key o,
      ((lookupKV ix.entries (keyVecOf ix.idxDef.key o)).getD []) ++ [r]),
      mem_setKV_self _ _ _, by simp⟩

theorem indexRemoveInstance_idxDef (ix : IndexData) (r : Ref) (o : Obj) :
    (indexRemoveInstance ix r o).idxDef = ix.idxDef := by
  unfold indexRemoveInstance
  by_cases hu : ix.idxDef.unique = true
  · rw [if_pos hu]
  · rw [if_neg hu]
    cases lookupKV ix.entries (keyVecOf ix.idxDef.key o) <;> rfl

theorem not_mem_entry_at_key_after_remove (ix : IndexData) (r : Ref) (o : Obj) :
    ∀ e ∈ (indexRemoveInstance ix r o).entries,
      e.1 = keyVecOf ix.idxDef.key o → r ∉ e.2 := by
  by_cases hu : ix.idxDef.unique = true
  · intro e he hk
    have he2 : e ∈ delKV ix.entries (keyVecOf ix.idxDef.key o) := by
      simpa [indexRemoveInstance, hu] using he
    exact absurd hk (mem_delKV_elim _ _ _ he2).2
  · cases hl : lookupKV ix.entries (keyVecOf ix.idxDef.key o) with
    | none =>
      intro e he hk
      have he2 : e ∈ ix.entries := by
        simpa [indexRemoveInstance, hu, hl] using he
      have h3 := lookupKV_isSome_of_mem ix.entries e.1 e.2 (by simpa using he2)
      rw [hk, hl] at h3
      simp at h3
    | some arr =>
      intro e he hk
      have he2 : e ∈ setKV ix.entries (keyVecOf ix.idxDef.key o)
          (arr.filter (fun x => x != r)) := by
        simpa [indexRemoveInstance, hu, hl] using he
      rcases mem_setKV_elim _ _ _ _ he2 with h1 | h1
      · rw [h1]
        simp
      · exact absurd hk h1.2

theorem not_refInIndex_after_remove (ix : IndexData) (r : Ref) (o : Obj)
    (hc : ∀ e ∈ ix.entries, r ∈ e.2 → e.1 = keyVecOf ix.idxDef.key o) :
    ¬ refInIndex (indexRemoveInstance ix r o) r := by
  unfold indexRemoveInstance refInIndex
  by_cases hu : ix.idxDef.unique = true
  · rw [if_pos hu]
    rintro ⟨e, he, hre⟩
    have h2 := mem_delKV_elim ix.entries (keyVecOf ix.idxDef.key o) e he
    exact h2.2 (hc e h2.1 hre)
  · rw [if_neg hu]
    cases hl : lookupKV ix.entries (keyVecOf ix.idxDef.key o) with
    | none =>
      rintro ⟨e, he, hre⟩
      have hek := hc e he hre
      have h2 := lookupKV_isSome_of_mem ix.entries e.1 e.2 (by simpa using he)
      rw [hek, hl] at h2
      simp at h2
    | some arr =>
      rintro ⟨e, he, hre⟩
      rcases mem_setKV_elim _ _ _ _ he with h1 | h1
      · rw [h1] at hre
        simp at hre
      · exact h1.2 (hc e h1.1 hre)

/-! ## `removeFromCache` list-scan helper -/

theorem removeListScan_not_mem (c : ClientCache) (k : String) (r : Ref) :
    ∀ l : List Ref,
      (∀ x ∈ l, jsKey (cacheIdOf c (heapGet c x)) = k → x = r) →
      l.count r ≤ 1 →
      jsKey (cacheIdOf c (heapGet c r)) = k →
      r ∉ removeListScan c k l := by
  intro l
  induction l with
  | nil => intro _ _ _; simp [removeListScan]
  | cons x rest ih =>
    intro hmatch hcount hrk
    by_cases hx : jsKey (cacheIdOf c (heapGet c x)) = k
    · rw [removeListScan, if_pos hx]
      have hxr : x = r := hmatch x (List.mem_cons_self _ _) hx
      subst hxr
      rw [List.count_cons_self] at hcount
      have h0 : rest.count x = 0 := by omega
      exact List.count_eq_zero.mp h0
    · rw [removeListScan, if_neg hx]
      have hxr : x ≠ r := by
        intro he
        rw [he] at hx
        exact hx hrk
      intro hmem
      rcases List.mem_cons.mp hmem with h1 | h1
      · exact hxr h1.symm
      · have hc2 : rest.count r ≤ 1 := by
          rw [List.count_cons_of_ne (fun he => hxr he.symm)] at hcount
          exact hcount
        exact ih (fun y hy => hmatch y (List.mem_cons_of_mem _ hy)) hc2 hrk h1

/-! ## Characterization of `applyChange` on a single record -/

theorem applyChange_cached (c : ClientCache) (nv : Obj) (r : Ref)
    (h : lookupKV c.map (jsKey (cacheIdOf c nv)) = some r) :
    applyChange c nv =
      if propsUnchanged (heapGet c r) nv then
        ({ c with nUpdates := c.nUpdates + 1 }, none,
          [CEvent.updating 0, CEvent.updated []])
      else
        (mergedState c nv r, some r,
          [CEvent.updating 1, CEvent.updated [r]]) := by
  by_cases hp : propsUnchanged (heapGet c r) nv
  · simp [applyChange, applyChangesData, phase1, phase2, mergedState, h, hp]
  · simp [applyChange, applyChangesData, phase1, phase2, mergedState, h, hp]

theorem applyChange_uncached (c : ClientCache) (nv : Obj)
    (h : lookupKV c.map (jsKey (cacheIdOf c nv)) = none)
    (hfresh : lookupKV c.heap c.nextRef = none) :
    applyChange c nv =
      (insertedState c nv, some c.nextRef,
        [CEvent.wrapped c.nextRef, CEvent.updating 1,
          CEvent.updated [c.nextRef]]) := by
  have hW : heapGet { c with heap := c.heap ++ [(c.nextRef, nv)], nextRef := c.nextRef + 1 }
      c.nextRef = nv := by
    simp [heapGet, lookupKV_append, hfresh, lookupKV]
  have hId : cacheIdOf { c with heap := c.heap ++ [(c.nextRef, nv)], nextRef := c.nextRef + 1 }
      nv = cacheIdOf c nv := rfl
  simp [applyChange, applyChangesData, phase1, phase2, wrapAlloc, insertNew,
    insertedState, h, hW, hId]

/-! ## Invariants of the two `_applyChanges` passes -/

theorem phase1_cons_new (c : ClientCache) (nv : Obj) (rest : List Obj)
    (hl : lookupKV c.map (jsKey (cacheIdOf c nv)) = none) :
    phase1 c (nv :: rest) =
      ((phase1 (wrapAlloc c nv).1 rest).1,
        Delta.freshObj c.nextRef :: (phase1 (wrapAlloc c nv).1 rest).2.1,
        CEvent.wrapped c.nextRef :: (phase1 (wrapAlloc c nv).1 rest).2.2) := by
  simp [phase1, hl, wrapAlloc]

theorem phase1_cons_unchanged (c : ClientCache) (nv : Obj) (rest : List Obj) (r : Ref)
    (hl : lookupKV c.map (jsKey (cacheIdOf c nv)) = some r)
    (hp : propsUnchanged (heapGet c r) nv = true) :
    phase1 c (nv :: rest) = phase1 c rest := by
  simp [phase1, hl, hp]

theorem phase1_cons_changed (c : ClientCache) (nv : Obj) (rest : List Obj) (r : Ref)
    (hl : lookupKV c.map (jsKey (cacheIdOf c nv)) = some r)
    (hp : propsUnchanged (heapGet c r) nv = false) :
    phase1 c (nv :: rest) =
      ((phase1 c rest).1, Delta.changedRec nv :: (phase1 c rest).2.1,
        (phase1 c rest).2.2) := by
  simp [phase1, hl, hp]

theorem phase2_cons_fresh_some (c : ClientCache) (r0 : Ref) (rest : List Delta) (r : Ref)
    (hl : lookupKV c.map (jsKey (cacheIdOf c (heapGet c r0))) = some r) :
    phase2 c (Delta.freshObj r0 :: rest) =
      ((phase2 (mergedHeapState c (heapGet c r0) r) rest).1,
        r :: (phase2 (mergedHeapState c (heapGet c r0) r) rest).2) := by
  simp [phase2, hl, mergedHeapState]

theorem phase2_cons_changed_some (c : ClientCache) (o : Obj) (rest : List Delta) (r : Ref)
    (hl : lookupKV c.map (jsKey (cacheIdOf c o)) = some r) :
    phase2 c (Delta.changedRec o :: rest) =
      ((phase2 (mergedHeapState c o r) rest).1,
        r :: (phase2 (mergedHeapState c o r) rest).2) := by
  simp [phase2, hl, mergedHeapState]

theorem phase2_cons_fresh_none (c : ClientCache) (r0 : Ref) (rest : List Delta)
    (hl : lookupKV c.map (jsKey (cacheIdOf c (heapGet c r0))) = none) :
    phase2 c (Delta.freshObj r0 :: rest) =
      ((phase2 (insertNew c r0) rest).1, r0 :: (phase2 (insertNew c r0) rest).2) := by
  simp [phase2, hl]

theorem phase2_cons_changed_none (c : ClientCache) (o : Obj) (rest : List Delta)
    (hl : lookupKV c.map (jsKey (cacheIdOf c o)) = none) :
    phase2 c (Delta.changedRec o :: rest) =
      ((phase2 (insertNew (allocState c o) c.nextRef) rest).1,
        c.nextRef :: (phase2 (insertNew (allocState c o) c.nextRef) rest).2) := by
  simp [phase2, hl, allocState]

theorem phase1_fields : ∀ (ds : List Obj) (c : ClientCache),
    (phase1 c ds).1.map = c.map ∧ (phase1 c ds).1.list = c.list ∧
    (phase1 c ds).1.indices = c.indices ∧
    (phase1 c ds).1.idProperty = c.idProperty := by
  intro ds
  induction ds with
  | nil => intro c; exact ⟨rfl, rfl, rfl, rfl⟩
  | cons nv rest ih =>
    intro c
    cases hl : lookupKV c.map (jsKey (cacheIdOf c nv)) with
    | none =>
      rw [phase1_cons_new c nv rest hl]
      exact ih (wrapAlloc c nv).1
    | some r =>
      cases hp : propsUnchanged (heapGet c r) nv with
      | false =>
        rw [phase1_cons_changed c nv rest r hl hp]
        exact ih c
      | true =>
        rw [phase1_cons_unchanged c nv rest r hl hp]
        exact ih c

theorem phase1_heap_some : ∀ (ds : List Obj) (c : ClientCache) (p : Ref) (o : Obj),
    lookupKV c.heap p = some o → lookupKV (phase1 c ds).1.heap p = some o := by
  intro ds
  induction ds with
  | nil => intro c p o h; exact h
  | cons nv rest ih =>
    intro c p o h
    cases hl : lookupKV c.map (jsKey (cacheIdOf c nv)) with
    | none =>
      rw [phase1_cons_new c nv rest hl]
      exact ih (wrapAlloc c nv).1 p o (lookupKV_append_left _ _ _ _ h)
    | some r =>
      cases hp : propsUnchanged (heapGet c r) nv with
      | false =>
        rw [phase1_cons_changed c nv rest r hl hp]
        exact ih c p o h
      | true =>
        rw [phase1_cons_unchanged c nv rest r hl hp]
        exact ih c p o h

theorem phase1_nextRef_le : ∀ (ds : List Obj) (c : ClientCache),
    c.nextRef ≤ (phase1 c ds).1.nextRef := by
  intro ds
  induction ds with
  | nil => intro c; exact Nat.le_refl _
  | cons nv rest ih =>
    intro c
    cases hl : lookupKV c.map (jsKey (cacheIdOf c nv)) with
    | none =>
      rw [phase1_cons_new c nv rest hl]
      have h2 := ih (wrapAlloc c nv).1
      have h3 : c.nextRef ≤ (wrapAlloc c nv).1.nextRef := Nat.le_succ c.nextRef
      exact Nat.le_trans h3 h2
    | some r =>
      cases hp : propsUnchanged (heapGet c r) nv with
      | false =>
        rw [phase1_cons_changed c nv rest r hl hp]
        exact ih c
      | true =>
        rw [phase1_cons_unchanged c nv rest r hl hp]
        exact ih c

theorem phase1_bounded : ∀ (ds : List Obj) (c : ClientCache),
    (∀ p o, lookupKV c.heap p = some o → p < c.nextRef) →
    ∀ p o, lookupKV (phase1 c ds).1.heap p = some o → p < (phase1 c ds).1.nextRef := by
  intro ds
  induction ds with
  | nil => intro c hb p o h; exact hb p o h
  | cons nv rest ih =>
    intro c hb p o
    cases hl : lookupKV c.map (jsKey (cacheIdOf c nv)) with
    | none =>
      rw [phase1_cons_new c nv rest hl]
      have hb2 : ∀ p2 o2, lookupKV (wrapAlloc c nv).1.heap p2 = some o2 →
          p2 < (wrapAlloc c nv).1.nextRef := by
        intro p2 o2 h2
        have h2a : lookupKV (c.heap ++ [(c.nextRef, nv)]) p2 = some o2 := h2
        show p2 < c.nextRef + 1
        rcases lookupKV_append_elim _ _ _ _ h2a with h3 | h3
        · exact Nat.lt_succ_of_lt (hb p2 o2 h3)
        · by_cases he : c.nextRef = p2
          · subst he
            exact Nat.lt_succ_self _
          · rw [lookupKV, if_neg he] at h3
            rw [lookupKV] at h3
            exact absurd h3 Option.noConfusion
      exact ih (wrapAlloc c nv).1 hb2 p o
    | some r =>
      cases hp : propsUnchanged (heapGet c r) nv with
      | false =>
        rw [phase1_cons_changed c nv rest r hl hp]
        exact ih c hb p o
      | true =>
        rw [phase1_cons_unchanged c nv rest r hl hp]
        exact ih c hb p o

theorem phase1_fresh_bound : ∀ (ds : List Obj) (c : ClientCache) (r : Ref),
    Delta.freshObj r ∈ (phase1 c ds).2.1 →
    c.nextRef ≤ r ∧ r < (phase1 c ds).1.nextRef := by
  intro ds
  induction ds with
  | nil => intro c r h; simp [phase1] at h
  | cons nv rest ih =>
    intro c r
    cases hl : lookupKV c.map (jsKey (cacheIdOf c nv)) with
    | none =>
      rw [phase1_cons_new c nv rest hl]
      intro h
      have hle : (wrapAlloc c nv).1.nextRef ≤ (phase1 (wrapAlloc c nv).1 rest).1.nextRef :=
        phase1_nextRef_le rest (wrapAlloc c nv).1
      have hstep : c.nextRef < (wrapAlloc c nv).1.nextRef := Nat.lt_succ_self c.nextRef
      rcases List.mem_cons.mp h with h1 | h1
      · have hr : r = c.nextRef := by injection h1
        subst hr
        exact ⟨Nat.le_refl _, Nat.lt_of_lt_of_le hstep hle⟩
      · have h2 := ih (wrapAlloc c nv).1 r h1
        exact ⟨Nat.le_trans (Nat.le_of_lt hstep) h2.1, h2.2⟩
    | some rr =>
      cases hp : propsUnchanged (heapGet c rr) nv with
      | false =>
        rw [phase1_cons_changed c nv rest rr hl hp]
        intro h
        rcases List.mem_cons.mp h with h1 | h1
        · exact absurd h1 (by simp)
        · exact ih c r h1
      | true =>
        rw [phase1_cons_unchanged c nv rest rr hl hp]
        exact ih c r

theorem phase2_master : ∀ (ds : List Delta) (c : ClientCache) (N : Nat),
    (∀ p o, lookupKV c.heap p = some o → p < c.nextRef) →
    (∀ k r, lookupKV c.map k = some r → r < c.nextRef) →
    (∀ r, Delta.freshObj r ∈ ds → N ≤ r ∧ r < c.nextRef) →
    N ≤ c.nextRef →
    ((∀ k r, lookupKV c.map k = some r → lookupKV (phase2 c ds).1.map k = some r) ∧
      (∃ suf, (phase2 c ds).1.list = c.list ++ suf ∧ ∀ x ∈ suf, N ≤ x) ∧
      (∀ p, (lookupKV c.heap p).isSome → (lookupKV (phase2 c ds).1.heap p).isSome)) := by
  intro ds
  induction ds with
  | nil =>
    intro c N _ _ _ _
    exact ⟨fun k r h => h, ⟨[], by simp [phase2], by simp⟩, fun p h => h⟩
  | cons d rest ih =>
    intro c N hb hm hd hN
    cases d with
    | freshObj r0 =>
      cases hl : lookupKV c.map (jsKey (cacheIdOf c (heapGet c r0))) with
      | some r =>
        rw [phase2_cons_fresh_some c r0 rest r hl]
        have hb1 : ∀ p o, lookupKV (mergedHeapState c (heapGet c r0) r).heap p = some o →
            p < (mergedHeapState c (heapGet c r0) r).nextRef := by
          intro p o h
          have h0 : lookupKV (setKV c.heap r (copyProps (heapGet c r) (heapGet c r0))) p =
              some o := h
          show p < c.nextRef
          rcases lookupKV_setKV_cases _ _ _ _ _ h0 with h1 | h1
          · rw [h1.1]
            exact hm _ _ hl
          · exact hb p o h1
        have hres := ih (mergedHeapState c (heapGet c r0) r) N hb1 hm
          (fun rr hrr => hd rr (List.mem_cons_of_mem _ hrr)) hN
        refine ⟨fun k rr h => hres.1 k rr h, hres.2.1, ?_⟩
        intro p h
        exact hres.2.2 p (isSome_lookupKV_setKV _ _ _ _ h)
      | none =>
        rw [phase2_cons_fresh_none c r0 rest hl]
        have hd0 := hd r0 (List.mem_cons_self _ _)
        have hm1 : ∀ k rr, lookupKV (insertNew c r0).map k = some rr →
            rr < (insertNew c r0).nextRef := by
          intro k rr h
          have h2 : lookupKV (setKV c.map (jsKey (cacheIdOf c (heapGet c r0))) r0) k =
              some rr := h
          show rr < c.nextRef
          rcases lookupKV_setKV_cases _ _ _ _ _ h2 with h1 | h1
          · rw [h1.2]
            exact hd0.2
          · exact hm _ _ h1
        have hb1 : ∀ p o, lookupKV (insertNew c r0).heap p = some o →
            p < (insertNew c r0).nextRef := hb
        have hres := ih (insertNew c r0) N hb1 hm1
          (fun rr hrr => hd rr (List.mem_cons_of_mem _ hrr)) hN
        refine ⟨?_, ?_, ?_⟩
        · intro k rr h
          have hk : k ≠ jsKey (cacheIdOf c (heapGet c r0)) := by
            intro he
            rw [he, hl] at h
            exact Option.noConfusion h
          have h2 : lookupKV (insertNew c r0).map k = some rr := by
            show lookupKV (setKV c.map (jsKey (cacheIdOf c (heapGet c r0))) r0) k = some rr
            rw [lookupKV_setKV_ne _ _ _ _ (fun he => hk he.symm)]
            exact h
          exact hres.1 k rr h2
        · rcases hres.2.1 with ⟨suf, hsuf, hall⟩
          refine ⟨r0 :: suf, ?_, ?_⟩
          · have h2 : (insertNew c r0).list = c.list ++ [r0] := rfl
            rw [h2] at hsuf
            rw [hsuf]
            simp
          · intro x hx
            rcases List.mem_cons.mp hx with h1 | h1
            · rw [h1]; exact hd0.1
            · exact hall x h1
        · intro p h
          exact hres.2.2 p h
    | changedRec o =>
      cases hl : lookupKV c.map (jsKey (cacheIdOf c o)) with
      | some r =>
        rw [phase2_cons_changed_some c o rest r hl]
        have hb1 : ∀ p oo, lookupKV (mergedHeapState c o r).heap p = some oo →
            p < (mergedHeapState c o r).nextRef := by
          intro p oo h
          have h0 : lookupKV (setKV c.heap r (copyProps (heapGet c r) o)) p = some oo := h
          show p < c.nextRef
          rcases lookupKV_setKV_cases _ _ _ _ _ h0 with h1 | h1
          · rw [h1.1]
            exact hm _ _ hl
          · exact hb p oo h1
        have hres := ih (mergedHeapState c o r) N hb1 hm
          (fun rr hrr => hd rr (List.mem_cons_of_mem _ hrr)) hN
        refine ⟨fun k rr h => hres.1 k rr h, hres.2.1, ?_⟩
        intro p h
        exact hres.2.2 p (isSome_lookupKV_setKV _ _ _ _ h)
      | none =>
        rw [phase2_cons_changed_none c o rest hl]
        have hnew : lookupKV c.heap c.nextRef = none := by
          cases hh : lookupKV c.heap c.nextRef with
          | none => rfl
          | some oo => exact absurd (hb _ _ hh) (Nat.lt_irrefl _)
        have hGet : heapGet (allocState c o) c.nextRef = o := by
          simp [allocState, heapGet, lookupKV_append, hnew, lookupKV]
        have hb0 : ∀ p oo,
            lookupKV (insertNew (allocState c o) c.nextRef).heap p = some oo →
            p < (insertNew (allocState c o) c.nextRef).nextRef := by
          intro p oo h
          have h0 : lookupKV (c.heap ++ [(c.nextRef, o)]) p = some oo := h
          show p < c.nextRef + 1
          rcases lookupKV_append_elim _ _ _ _ h0 with h1 | h1
          · exact Nat.lt_succ_of_lt (hb p oo h1)
          · by_cases he : c.nextRef = p
            · subst he
              exact Nat.lt_succ_self _
            · rw [lookupKV, if_neg he] at h1
              rw [lookupKV] at h1
              exact absurd h1 Option.noConfusion
        have hKey : jsKey (cacheIdOf (allocState c o) (heapGet (allocState c o) c.nextRef)) =
            jsKey (cacheIdOf c o) := by
          rw [hGet]
          rfl
        have hm1 : ∀ k rr,
            lookupKV (insertNew (allocState c o) c.nextRef).map k = some rr →
            rr < (insertNew (allocState c o) c.nextRef).nextRef := by
          intro k rr h
          have h2 : lookupKV (setKV (allocState c o).map
              (jsKey (cacheIdOf (allocState c o) (heapGet (allocState c o) c.nextRef)))
              c.nextRef) k = some rr := h
          show rr < c.nextRef + 1
          rcases lookupKV_setKV_cases _ _ _ _ _ h2 with h1 | h1
          · rw [h1.2]
            exact Nat.lt_succ_self _
          · exact Nat.lt_succ_of_lt (hm _ _ h1)
        have hres := ih (insertNew (allocState c o) c.nextRef) N hb0 hm1
          (fun rr hrr => by
            have h2 := hd rr (List.mem_cons_of_mem _ hrr)
            exact ⟨h2.1, Nat.lt_succ_of_lt h2.2⟩)
          (Nat.le_succ_of_le hN)
        refine ⟨?_, ?_, ?_⟩
        · intro k rr h
          have hk : k ≠ jsKey (cacheIdOf c o) := by
            intro he
            rw [he, hl] at h
            exact Option.noConfusion h
          have h2 : lookupKV (insertNew (allocState c o) c.nextRef).map k = some rr := by
            show lookupKV (setKV (allocState c o).map
              (jsKey (cacheIdOf (allocState c o) (heapGet (allocState c o) c.nextRef)))
              c.nextRef) k = some rr
            rw [hKey]
            rw [lookupKV_setKV_ne _ _ _ _ (fun he => hk he.symm)]
            exact h
          exact hres.1 k rr h2
        · rcases hres.2.1 with ⟨suf, hsuf, hall⟩
          refine ⟨c.nextRef :: suf, ?_, ?_⟩
          · have h2 : (insertNew (allocState c o) c.nextRef).list =
                c.list ++ [c.nextRef] := rfl
            rw [h2] at hsuf
            rw [hsuf]
            simp
          · intro x hx
            rcases List.mem_cons.mp hx with h1 | h1
            · rw [h1]; exact hN
            · exact hall x h1
        · intro p h
          have h2 : (lookupKV (insertNew (allocState c o) c.nextRef).heap p).isSome := by
            show (lookupKV (c.heap ++ [(c.nextRef, o)]) p).isSome
            rcases Option.isSome_iff_exists.mp h with ⟨oo, hoo⟩
            rw [lookupKV_append_left _ _ _ _ hoo]
            rfl
          exact hres.2.2 p h2

/-! ## Claim theorems -/

/-- C7: the host's default `compileReadObjectQuery` rejects with
`error.invalid.request` exactly the inputs that do not resolve to a numeric
identifier (the `isNaN` coercion test) and returns the identifier
otherwise; the default `compileReadObjectsQuery` rejects any present
(truthy) input with `error.invalid.request` and otherwise returns the
unrestricted filter `{}`. -/
theorem compile_default_queries_spec (q : JsVal) :
    (¬ resolvesToNumericIdentifier q →
      compileReadObjectQuery q = .rejected "error.invalid.request") ∧
    (resolvesToNumericIdentifier q → compileReadObjectQuery q = .ok q) ∧
    (queryInputPresent q →
      compileReadObjectsQuery q = .rejected "error.invalid.request") ∧
    (¬ queryInputPresent q → compileReadObjectsQuery q = .ok (.obj .nil)) := by
  unfold resolvesToNumericIdentifier queryInputPresent compileReadObjectQuery
    compileReadObjectsQuery
  cases hn : jsIsNaN q <;> cases ht : jsTruthy q <;> simp

/-- Witness for C7 at concrete inputs: the numeric id `7` is returned
unchanged and the present (truthy) object input is rejected. -/
theorem compile_default_queries_spec_witness :
    compileReadObjectQuery (.num 7) = .ok (.num 7) ∧
    compileReadObjectsQuery (.obj (.cons "x" (.num 1) .nil)) =
      .rejected "error.invalid.request" :=
  ⟨(compile_default_queries_spec (.num 7)).2.1
      (by decide : jsIsNaN (.num 7) = false),
   (compile_default_queries_spec (.obj (.cons "x" (.num 1) .nil))).2.2.1
      (by decide : jsTruthy (.obj (.cons "x" (.num 1) .nil)) = true)⟩

/-- C8: every Client-to-Host `Public` procedure rejects an unknown
`cacheName` with `error.invalid.request` and an insufficient role with
`error.invalid.permissions`, in both cases delegating nothing to the
endpoint (and hence never touching the store); whenever a delegation is
emitted, the registry lookup and the role check both passed first. -/
theorem public_procedures_gating (h : HostAccess) (n : String) :
    (h.knownCaches.contains n = false →
      publicFetchObject h n = (.error "error.invalid.request", []) ∧
      publicFetchObjects h n = (.error "error.invalid.request", []) ∧
      publicCreateObject h n = (.error "error.invalid.request", []) ∧
      publicUpdateObject h n = (.error "error.invalid.request", []) ∧
      publicDeleteObject h n = (.error "error.invalid.request", [])) ∧
    (h.knownCaches.contains n = true → h.userHasMinRole = false →
      publicFetchObject h n = (.error "error.invalid.permissions", []) ∧
      publicFetchObjects h n = (.error "error.invalid.permissions", []) ∧
      publicCreateObject h n = (.error "error.invalid.permissions", []) ∧
      publicUpdateObject h n = (.error "error.invalid.permissions", []) ∧
      publicDeleteObject h n = (.error "error.invalid.permissions", [])) ∧
    ((publicFetchObject h n).2 ≠ [] ∨ (publicFetchObjects h n).2 ≠ [] ∨
        (publicCreateObject h n).2 ≠ [] ∨ (publicUpdateObject h n).2 ≠ [] ∨
        (publicDeleteObject h n).2 ≠ [] →
      h.knownCaches.contains n = true ∧ h.userHasMinRole = true) := by
  unfold publicFetchObject publicFetchObjects publicCreateObject
    publicUpdateObject publicDeleteObject
  cases hc : h.knownCaches.contains n <;> cases hr : h.userHasMinRole <;> simp

/-- Witness for C8: a concrete registry with an unknown name, and an
insufficient role on a known name. -/
theorem public_procedures_gating_witness :
    publicFetchObject { knownCaches := ["Users"], userHasMinRole := true } "Other" =
      (.error "error.invalid.request", []) ∧
    publicDeleteObject { knownCaches := ["Users"], userHasMinRole := false } "Users" =
      (.error "error.invalid.permissions", []) :=
  ⟨((public_procedures_gating
      { knownCaches := ["Users"], userHasMinRole := true } "Other").1 (by decide)).1,
   (((public_procedures_gating
      { knownCaches := ["Users"], userHasMinRole := false } "Users").2.1
        (by decide) (by decide)).2.2.2.2)⟩

/-- C9: `getObjectNow` is a pure cache read: for every input it leaves the
cache state unchanged and performs no host call; a numeric id absent from
`map` yields `undefined` (a miss), and a non-numeric input yields the
rejected-promise value, still with no side effect. -/
theorem getObjectNow_cache_only (c : ClientCache) (q : JsVal) :
    (getObjectNow c q).2.1 = c ∧
    (getObjectNow c q).2.2 = ([] : List RpcCall) ∧
    (jsIsNaN q = false → lookupKV c.map (jsKey q) = none →
      (getObjectNow c q).1 = .missing) ∧
    (jsIsNaN q = true →
      (getObjectNow c q).1 = .rejected "error.invalid.request") := by
  unfold getObjectNow
  cases hn : jsIsNaN q
  · cases hl : lookupKV c.map (jsKey q) <;> simp [hl]
  · simp

/-- Witness for C9: a miss on the empty `Users` cache with numeric id 5. -/
theorem getObjectNow_cache_only_witness :
    (getObjectNow emptyUsersCache (.num 5)).2.1 = emptyUsersCache ∧
    (getObjectNow emptyUsersCache (.num 5)).1 = .missing :=
  ⟨(getObjectNow_cache_only emptyUsersCache (.num 5)).1,
   (getObjectNow_cache_only emptyUsersCache (.num 5)).2.2.1 (by decide) (by decide)⟩

/-- C10 counterexample: `wrapObject` is guarded by `if (!data)`, which
tests JavaScript falsiness, not only null/undefined: the non-null argument
`0` returns null with no instance construction, no `onWrapObject` call and
no `wrapped` event, contradicting "for every non-null argument it fires
the `wrapped` event exactly once". -/
theorem wrapObject_falsy_counterexample :
    wrapObject false (.num 0) = (.null, []) ∧
    wrapObject true (.num 0) = (.null, []) ∧
    JsVal.num 0 ≠ .null ∧ JsVal.num 0 ≠ .undef := by
  decide

/-- C10 (amended): `wrapObject` returns null for every falsy argument
(null, undefined, and also `false`, `0`, `""`), constructing nothing,
invoking `onWrapObject` not at all and firing no `wrapped` event; for
every truthy argument it invokes `onWrapObject` once and fires `wrapped`
exactly once with the (possibly wrapped) object. -/
theorem wrapObject_spec (hic : Bool) (d : JsVal) :
    (jsTruthy d = false → wrapObject hic d = (.null, [])) ∧
    wrapObject hic .null = (.null, []) ∧
    wrapObject hic .undef = (.null, []) ∧
    (jsTruthy d = true →
      (wrapObject hic d).1 = d ∧
      (wrapObject hic d).2.count .wrappedFired = 1 ∧
      (wrapObject hic d).2.count .onWrapObjectCalled = 1) := by
  cases hic <;> cases ht : jsTruthy d <;> simp [wrapObject, ht] <;> decide

/-- Witness for C10: a truthy object argument fires `wrapped` once. -/
theorem wrapObject_spec_witness :
    (wrapObject true (.obj (.cons "id" (.num 1) .nil))).2.count .wrappedFired = 1 ∧
    wrapObject true .null = (.null, []) :=
  ⟨((wrapObject_spec true (.obj (.cons "id" (.num 1) .nil))).2.2.2 (by decide)).2.1,
   (wrapObject_spec true (.obj (.cons "id" (.num 1) .nil))).2.1⟩

/-- C3 counterexample: merging `{id:1, email:"a@x.com"}` a second time
produces an empty delta, but the `updated` event still fires (with the
empty delta) and `nUpdates` still increments from 1 to 2, contradicting
"fires no `updated` event, and leaves the `nUpdates` counter unchanged". -/
theorem idempotent_merge_counterexample :
    (applyChangesData usersCache1 (some [userRec1])).2.2 =
      [CEvent.updating 0, CEvent.updated []] ∧
    usersCache1.nUpdates = 1 ∧
    (applyChangesData usersCache1 (some [userRec1])).1.nUpdates = 2 :=
  ⟨rfl, rfl, rfl⟩

/-- C3 (amended): merging a record whose every property is deep-equal to
the cached object's produces no entry in the changed set: the only state
change is the unconditional `nUpdates` increment, and the `updating` /
`updated` events fire with an empty delta. -/
theorem idempotent_merge_empty_delta (c : ClientCache) (nv : Obj) (r : Ref)
    (hmap : lookupKV c.map (jsKey (cacheIdOf c nv)) = some r)
    (heq : ∀ kv ∈ nv, getProp (heapGet c r) kv.1 = kv.2) :
    applyChangesData c (some [nv]) =
      ({ c with nUpdates := c.nUpdates + 1 }, [],
        [CEvent.updating 0, CEvent.updated []]) := by
  have hp : propsUnchanged (heapGet c r) nv = true := (propsUnchanged_iff _ _).mpr heq
  simp [applyChangesData, phase1, phase2, hmap, hp]

/-- Witness for C3 at the spec's scenario. -/
theorem idempotent_merge_empty_delta_witness :
    applyChangesData usersCache1 (some [userRec1]) =
      ({ usersCache1 with nUpdates := usersCache1.nUpdates + 1 }, [],
        [CEvent.updating 0, CEvent.updated []]) :=
  idempotent_merge_empty_delta usersCache1 userRec1 0 (by decide) (by decide)

/-- C1 counterexample: updating object 1 with an input that carries the new
property `extra` and having the host reject leaves `extra: "X"` on the
object after the rollback (the rollback re-applies the clone's properties
but cannot delete a property the clone never had), so the state after the
rollback is not deep-equal to the state before the call. -/
theorem updateObject_rollback_counterexample :
    (clientUpdateObject usersCache1 updateInputC1 true).map
      (fun res => getProp (heapGet res.1 0) "extra") = some (.str "X") ∧
    getProp (heapGet usersCache1 0) "extra" = .undef ∧
    (clientUpdateObject usersCache1 updateInputC1 true).map
      (fun res => decide (res.1.heap = usersCache1.heap)) = some false := by
  decide

/-- C1 (amended): when the client `updateObject` is rejected by the host,
the rollback restores every property the object had before the update to
its pre-update value, preserves the object's identity (`map[id]` still
holds the same reference) and leaves `list`, `map` and the indices
unchanged; properties that the update input introduced and the original
object did not have survive the rollback (and `nUpdates` counts both merge
calls). -/
theorem updateObject_rejected_rollback_restores_original_properties
    (c : ClientCache) (q : Obj) (r : Ref)
    (hmap : lookupKV c.map (jsKey (cacheIdOf c q)) = some r)
    (hid : jsKey (cacheIdOf c (heapGet c r)) = jsKey (cacheIdOf c q))
    (hnd : ((heapGet c r).map Prod.fst).Nodup) :
    ∃ c2 evs, clientUpdateObject c q true = some (c2, evs) ∧
      c2.list = c.list ∧ c2.map = c.map ∧ c2.indices = c.indices ∧
      lookupKV c2.map (jsKey (cacheIdOf c q)) = some r ∧
      ∀ p ∈ (heapGet c r).map Prod.fst,
        getProp (heapGet c2 r) p = getProp (heapGet c r) p := by
  have propAgree : ∀ (M : Obj), propsUnchanged M (heapGet c r) = true →
      ∀ p ∈ (heapGet c r).map Prod.fst, getProp M p = getProp (heapGet c r) p := by
    intro M hM p hp
    rcases List.mem_map.mp hp with ⟨kv, hkv, hpe⟩
    have h1 := (propsUnchanged_iff _ _).mp hM kv hkv
    have h2 : getProp (heapGet c r) kv.1 = kv.2 := by
      simp [getProp,
        lookupKV_eq_some_of_mem_nodup (heapGet c r) kv.1 kv.2 hnd (by simpa using hkv)]
    rw [← hpe, h1, h2]
  unfold clientUpdateObject
  rw [hmap]
  simp only [applyChange_cached c q r hmap]
  by_cases hp1 : propsUnchanged (heapGet c r) q
  · rw [if_pos hp1]
    have hmap2 : lookupKV ({ c with nUpdates := c.nUpdates + 1 } : ClientCache).map
        (jsKey (cacheIdOf { c with nUpdates := c.nUpdates + 1 } (heapGet c r))) = some r := by
      show lookupKV c.map (jsKey (cacheIdOf c (heapGet c r))) = some r
      rw [hid]
      exact hmap
    simp only [applyChange_cached _ _ r hmap2]
    have hself : propsUnchanged
        (heapGet { c with nUpdates := c.nUpdates + 1 } r) (heapGet c r) = true :=
      propsUnchanged_self (heapGet c r) hnd
    rw [if_pos hself]
    exact ⟨_, _, rfl, rfl, rfl, rfl, hmap, fun p _ => rfl⟩
  · rw [if_neg hp1]
    have hmap2 : lookupKV (mergedState c q r).map
        (jsKey (cacheIdOf (mergedState c q r) (heapGet c r))) = some r := by
      show lookupKV c.map (jsKey (cacheIdOf c (heapGet c r))) = some r
      rw [hid]
      exact hmap
    simp only [applyChange_cached _ _ r hmap2]
    have hG : heapGet (mergedState c q r) r = copyProps (heapGet c r) q := by
      simp [mergedState, heapGet, lookupKV_setKV_self]
    by_cases hp2 : propsUnchanged (heapGet (mergedState c q r) r) (heapGet c r)
    · rw [if_pos hp2]
      refine ⟨_, _, rfl, rfl, rfl, rfl, hmap, ?_⟩
      intro p hp
      have := propAgree _ hp2 p hp
      exact this
    · rw [if_neg hp2]
      refine ⟨_, _, rfl, rfl, rfl, rfl, hmap, ?_⟩
      intro p hp
      have hG2 : heapGet (mergedState (mergedState c q r) (heapGet c r) r) r =
          copyProps (heapGet (mergedState c q r) r) (heapGet c r) := by
        simp [mergedState, heapGet, lookupKV_setKV_self]
      rw [hG2]
      exact getProp_copyProps_mem (heapGet c r) hnd _ p hp

/-- Witness for C1 (amended): rejected update of object 1 in the `Users`
cache; the `email` property is back to its original value afterwards. -/
theorem updateObject_rejected_rollback_witness :
    ∃ c2 evs, clientUpdateObject usersCache1 updateInputC1 true = some (c2, evs) ∧
      c2.list = usersCache1.list ∧ c2.map = usersCache1.map ∧
      c2.indices = usersCache1.indices ∧
      lookupKV c2.map (jsKey (cacheIdOf usersCache1 updateInputC1)) = some 0 ∧
      ∀ p ∈ (heapGet usersCache1 0).map Prod.fst,
        getProp (heapGet c2 0) p = getProp (heapGet usersCache1 0) p :=
  updateObject_rejected_rollback_restores_original_properties usersCache1
    updateInputC1 0 (by decide) (by decide) (by decide)

/-- C4 counterexample: at the spec's scenario (unique index on `email`,
object 1 cached with `a@x.com`, then merge `{id:1, email:"b@x.com"}`),
the index lookup by the new value `"b@x.com"` misses and the lookup by the
old value `"a@x.com"` still returns object 1 (which now carries the new
value) — the opposite of the claimed lookups. -/
theorem index_stale_counterexample :
    (indexByName usersCache2 "email").map
      (fun ix => indexGetUnique ix [.str "b@x.com"]) = some none ∧
    (indexByName usersCache2 "email").map
      (fun ix => indexGetUnique ix [.str "a@x.com"]) = some (some 0) ∧
    lookupKV usersCache2.map (jsKey (.num 1)) = some 0 ∧
    getProp (heapGet usersCache2 0) "email" = .str "b@x.com" ∧
    countUpdatedEvents (applyChangesData usersCache1 (some [emailChangeRec])).2.2 = 1 := by
  decide

/-- C4 (amended): merging a record that changes a property of an
already-cached object fires `updated` exactly once and merges the values
in place, but updates no index: `indices` (with `map` and `list`) are left
exactly as they were, so an index keyed on the changed property still
answers lookups with the pre-merge key (old value hits, new value
misses). -/
theorem merge_changed_leaves_indices_stale (c : ClientCache) (nv : Obj) (r : Ref)
    (hmap : lookupKV c.map (jsKey (cacheIdOf c nv)) = some r)
    (hch : propsUnchanged (heapGet c r) nv = false) :
    (applyChangesData c (some [nv])).1.indices = c.indices ∧
    (applyChangesData c (some [nv])).1.map = c.map ∧
    (applyChangesData c (some [nv])).1.list = c.list ∧
    countUpdatedEvents (applyChangesData c (some [nv])).2.2 = 1 ∧
    applyChangesData c (some [nv]) =
      (mergedState c nv r, [r], [CEvent.updating 1, CEvent.updated [r]]) := by
  have hmain : applyChangesData c (some [nv]) =
      (mergedState c nv r, [r], [CEvent.updating 1, CEvent.updated [r]]) := by
    simp [applyChangesData, phase1, phase2, mergedState, hmap, hch]
  rw [hmain]
  exact ⟨rfl, rfl, rfl, rfl, rfl⟩

/-- Witness for C4 (amended) at the spec's scenario. -/
theorem merge_changed_leaves_indices_stale_witness :
    (applyChangesData usersCache1 (some [emailChangeRec])).1.indices =
      usersCache1.indices ∧
    countUpdatedEvents (applyChangesData usersCache1 (some [emailChangeRec])).2.2 = 1 :=
  ⟨(merge_changed_leaves_indices_stale usersCache1 emailChangeRec 0
      (by decide) (by decide)).1,
   (merge_changed_leaves_indices_stale usersCache1 emailChangeRec 0
      (by decide) (by decide)).2.2.2.1⟩

/-- C2: when the client `deleteObject` is rejected by the host, the
rollback (`applyChange` of the removed object) re-inserts the object's data
into `list`, into `map` under its id, and into every configured index, so
that `getObjectNow` with the object's id succeeds again and returns an
object with the removed object's properties. -/
theorem deleteObject_rejected_rollback_reinserts (c : ClientCache) (idv : JsVal) (r : Ref)
    (hnum : jsIsNaN idv = false)
    (hmap : lookupKV c.map (jsKey idv) = some r)
    (hid : jsKey (cacheIdOf c (heapGet c r)) = jsKey idv)
    (hfresh : lookupKV c.heap c.nextRef = none) :
    ∃ c2 evs r2,
      clientDeleteObject c (.idVal idv) true = some (c2, evs) ∧
      lookupKV c2.map (jsKey idv) = some r2 ∧
      r2 ∈ c2.list ∧
      (∀ ix ∈ c2.indices, refInIndex ix r2) ∧
      (getObjectNow c2 idv).1 = .found r2 ∧
      heapGet c2 r2 = heapGet c r := by
  have hArg : argId c (.idVal idv) = idv := by simp [argId, hnum]
  have hRem : removeFromCache c (.idVal idv) =
      (removedState c (jsKey idv) r, some r, [CEvent.removed r]) := by
    simp [removeFromCache, hArg, hmap, removedState]
  have hid1 : jsKey (cacheIdOf (removedState c (jsKey idv) r)
      (heapGet (removedState c (jsKey idv) r) r)) = jsKey idv := hid
  have hUn : lookupKV (removedState c (jsKey idv) r).map
      (jsKey (cacheIdOf (removedState c (jsKey idv) r)
        (heapGet (removedState c (jsKey idv) r) r))) = none := by
    show lookupKV (delKV c.map (jsKey idv))
      (jsKey (cacheIdOf c (heapGet c r))) = none
    rw [hid]
    exact lookupKV_delKV_self _ _
  have hfresh1 : lookupKV (removedState c (jsKey idv) r).heap
      (removedState c (jsKey idv) r).nextRef = none := hfresh
  have happ := applyChange_uncached (removedState c (jsKey idv) r)
    (heapGet (removedState c (jsKey idv) r) r) hUn hfresh1
  have hmain : clientDeleteObject c (.idVal idv) true =
      some (insertedState (removedState c (jsKey idv) r)
          (heapGet (removedState c (jsKey idv) r) r),
        [CEvent.removed r, CEvent.wrapped (removedState c (jsKey idv) r).nextRef,
          CEvent.updating 1,
          CEvent.updated [(removedState c (jsKey idv) r).nextRef]]) := by
    simp [clientDeleteObject, hRem, happ]
  have hLook : lookupKV (insertedState (removedState c (jsKey idv) r)
        (heapGet (removedState c (jsKey idv) r) r)).map (jsKey idv) =
      some (removedState c (jsKey idv) r).nextRef := by
    show lookupKV (setKV (removedState c (jsKey idv) r).map
        (jsKey (cacheIdOf (removedState c (jsKey idv) r)
          (heapGet (removedState c (jsKey idv) r) r)))
        (removedState c (jsKey idv) r).nextRef) (jsKey idv) =
      some (removedState c (jsKey idv) r).nextRef
    rw [hid1]
    exact lookupKV_setKV_self _ _ _
  refine ⟨_, _, (removedState c (jsKey idv) r).nextRef, hmain, hLook, ?_, ?_, ?_, ?_⟩
  · simp [insertedState]
  · intro ix2 h2
    simp only [insertedState, List.mem_map] at h2
    rcases h2 with ⟨ix, _, h3⟩
    rw [← h3]
    exact refInIndex_indexAddInstance _ _ _
  · simp [getObjectNow, hnum, hLook]
  · simp [insertedState, removedState, heapGet, lookupKV_append, hfresh, lookupKV]

/-- Witness for C2: rejected delete of object 1 in the `Users` cache. -/
theorem deleteObject_rejected_rollback_witness :
    ∃ c2 evs r2,
      clientDeleteObject usersCache1 (.idVal (.num 1)) true = some (c2, evs) ∧
      lookupKV c2.map (jsKey (.num 1)) = some r2 ∧
      r2 ∈ c2.list ∧
      (∀ ix ∈ c2.indices, refInIndex ix r2) ∧
      (getObjectNow c2 (.num 1)).1 = .found r2 ∧
      heapGet c2 r2 = heapGet usersCache1 0 :=
  deleteObject_rejected_rollback_reinserts usersCache1 (.num 1) 0
    (by decide) (by decide) (by decide) (by decide)

/-- C6 counterexample: in the code-reachable state where object 1 was
inserted with `email:"a@x.com"` and then merged in place to
`email:"b@x.com"` (a merge leaves the unique `email` index keyed by the
old value), `removeFromCache(1)` removes the object from `map` and `list`
(and `getObjectNow(1)` misses), but `_Index._removeInstance` deletes at
the object's current key `"b@x.com"` — a no-op — so the object is still
returned by the index lookup under `"a@x.com"`: it is not absent from
every configured index. -/
theorem removeFromCache_stale_index_counterexample :
    (removeFromCache usersCache2 (.idVal (.num 1))).2.1 = some 0 ∧
    lookupKV (removeFromCache usersCache2 (.idVal (.num 1))).1.map (jsKey (.num 1)) =
      none ∧
    (getObjectNow (removeFromCache usersCache2 (.idVal (.num 1))).1 (.num 1)).1 =
      .missing ∧
    0 ∉ (removeFromCache usersCache2 (.idVal (.num 1))).1.list ∧
    (indexByName (removeFromCache usersCache2 (.idVal (.num 1))).1 "email").map
      (fun ix => indexGetUnique ix [.str "a@x.com"]) = some (some 0) := by
  decide

/-- C6 (amended): for an id present in the client cache (under the
list/map well-formedness the code maintains: the object's id matches its
map key and `list` holds it once), `removeFromCache` makes `getObjectNow`
miss and removes the object from `list` and `map`; in every configured
index the object is removed at the key vector computed from its current
property values — hence it is absent from every index that held it only
under its current values, while an index left stale by an earlier in-place
merge of an indexed property keeps the object under the old key (the
removal there is a no-op).  For an id not present, `removeFromCache` is a
no-op returning `undefined` and changing no state. -/
theorem removeFromCache_spec (c : ClientCache) (idv : JsVal)
    (hnum : jsIsNaN idv = false) :
    (∀ r, lookupKV c.map (jsKey idv) = some r →
      jsKey (cacheIdOf c (heapGet c r)) = jsKey idv →
      (∀ x ∈ c.list, jsKey (cacheIdOf c (heapGet c x)) = jsKey idv → x = r) →
      c.list.count r ≤ 1 →
      lookupKV (removeFromCache c (.idVal idv)).1.map (jsKey idv) = none ∧
      (getObjectNow (removeFromCache c (.idVal idv)).1 idv).1 = .missing ∧
      r ∉ (removeFromCache c (.idVal idv)).1.list ∧
      (∀ ix2 ∈ (removeFromCache c (.idVal idv)).1.indices, ∀ e ∈ ix2.entries,
        e.1 = keyVecOf ix2.idxDef.key (heapGet c r) → r ∉ e.2) ∧
      (∀ ix ∈ c.indices,
        (∀ e ∈ ix.entries, r ∈ e.2 → e.1 = keyVecOf ix.idxDef.key (heapGet c r)) →
        ¬ refInIndex (indexRemoveInstance ix r (heapGet c r)) r)) ∧
    (lookupKV c.map (jsKey idv) = none →
      removeFromCache c (.idVal idv) = (c, none, [])) := by
  have hArg : argId c (.idVal idv) = idv := by simp [argId, hnum]
  constructor
  · intro r hmap hid hlist hcount
    have hRem : removeFromCache c (.idVal idv) =
        (removedState c (jsKey idv) r, some r, [CEvent.removed r]) := by
      simp [removeFromCache, hArg, hmap, removedState]
    rw [hRem]
    refine ⟨?_, ?_, ?_, ?_, ?_⟩
    · show lookupKV (delKV c.map (jsKey idv)) (jsKey idv) = none
      exact lookupKV_delKV_self _ _
    · simp [getObjectNow, hnum, removedState, lookupKV_delKV_self]
    · show r ∉ removeListScan c (jsKey idv) c.list
      exact removeListScan_not_mem c (jsKey idv) r c.list hlist hcount hid
    · intro ix2 h2
      simp only [removedState, List.mem_map] at h2
      rcases h2 with ⟨ix, _, h3⟩
      rw [← h3, indexRemoveInstance_idxDef]
      exact not_mem_entry_at_key_after_remove ix r (heapGet c r)
    · intro ix _ hcons
      exact not_refInIndex_after_remove ix r (heapGet c r) hcons
  · intro hmap
    simp [removeFromCache, hArg, hmap]

/-- C5: merging any record set via `_applyChanges` preserves object
identity: every id already present in `map` keeps exactly the same
reference afterwards, the existing `list` is preserved as an initial
segment (new references are only appended), every previously reachable
reference is still reachable from the heap, and every reference appended
to `list` is a newly created instance (it was not in `list` before).  The
hypotheses are the reference well-formedness every state built by the code
satisfies (all stored references were allocated). -/
theorem applyChanges_preserves_identity (c : ClientCache) (data : List Obj)
    (hb : ∀ e ∈ c.heap, e.1 < c.nextRef)
    (hm : ∀ e ∈ c.map, e.2 < c.nextRef)
    (hl : ∀ x ∈ c.list, x < c.nextRef) :
    (∀ k r, lookupKV c.map k = some r →
      lookupKV (applyChangesData c (some data)).1.map k = some r) ∧
    (∃ suf, (applyChangesData c (some data)).1.list = c.list ++ suf ∧
      ∀ x ∈ suf, x ∉ c.list) ∧
    (∀ p, (lookupKV c.heap p).isSome →
      (lookupKV (applyChangesData c (some data)).1.heap p).isSome) := by
  have hb' : ∀ p o, lookupKV c.heap p = some o → p < c.nextRef := by
    intro p o h
    exact hb (p, o) (mem_of_lookupKV _ _ _ h)
  have hm' : ∀ k r, lookupKV c.map k = some r → r < c.nextRef := by
    intro k r h
    exact hm (k, r) (mem_of_lookupKV _ _ _ h)
  have hf := phase1_fields data c
  have hb1 := phase1_bounded data c hb'
  have hN1 := phase1_nextRef_le data c
  have hm1 : ∀ k r, lookupKV (phase1 c data).1.map k = some r →
      r < (phase1 c data).1.nextRef := by
    intro k r h
    rw [hf.1] at h
    exact Nat.lt_of_lt_of_le (hm' k r h) hN1
  have hp2 := phase2_master (phase1 c data).2.1 (phase1 c data).1 c.nextRef
    hb1 hm1 (phase1_fresh_bound data c) hN1
  refine ⟨?_, ?_, ?_⟩
  · intro k r h
    have h1 : lookupKV (phase1 c data).1.map k = some r := by
      rw [hf.1]
      exact h
    exact hp2.1 k r h1
  · rcases hp2.2.1 with ⟨suf, hsuf, hall⟩
    rw [hf.2.1] at hsuf
    refine ⟨suf, hsuf, ?_⟩
    intro x hx hmem
    exact Nat.lt_irrefl x (Nat.lt_of_lt_of_le (hl x hmem) (hall x hx))
  · intro p h
    rcases Option.isSome_iff_exists.mp h with ⟨o, ho⟩
    have h1 : lookupKV (phase1 c data).1.heap p = some o :=
      phase1_heap_some data c p o ho
    exact hp2.2.2 p (by rw [h1]; rfl)

/-- Witness for C5: merging a record with the fresh id 2 into the `Users`
cache keeps `map["1"]` pointing at the same reference 0. -/
theorem applyChanges_preserves_identity_witness :
    lookupKV (applyChangesData usersCache1 (some [newUserRec])).1.map "1" = some 0 :=
  (applyChanges_preserves_identity usersCache1 [newUserRec]
    (by decide) (by decide) (by decide)).1 "1" 0 (by decide)

/-- Witness for C6: removing object 1 from the consistent `Users` cache
makes `getObjectNow 1` miss and takes it off `list`; removing the unknown
id 99 is a no-op. -/
theorem removeFromCache_spec_witness :
    (getObjectNow (removeFromCache usersCache1 (.idVal (.num 1))).1 (.num 1)).1 =
      .missing ∧
    0 ∉ (removeFromCache usersCache1 (.idVal (.num 1))).1.list ∧
    removeFromCache usersCache1 (.idVal (.num 99)) = (usersCache1, none, []) :=
  ⟨((removeFromCache_spec usersCache1 (.num 1) (by decide)).1 0
      (by decide) (by decide) (by decide) (by decide)).2.1,
   ((removeFromCache_spec usersCache1 (.num 1) (by decide)).1 0
      (by decide) (by decide) (by decide) (by decide)).2.2.1,
   (removeFromCache_spec usersCache1 (.num 99) (by decide)).2 (by decide)⟩

end CacheUtil
